import Mathlib

/-!
Verification of the redish type-mapping layer (redish/types.py): the List,
SortedSet, Dict, Queue and Int adapters and the local ZSet reference
implementation of a sorted set.  Remote structures are modelled by their
materialized values (a Redis list or sorted set becomes a Lean `List`, a
hash becomes an association list), and each adapter method is embedded as a
Lean function over those values; a raised Python exception is an
`Except.error`.
-/

namespace Redish

/-- Embedding of the Redis LRANGE command on a materialized list value:
negative indices count from the end of the list, the range is inclusive at
both ends, positions past the end are clamped, and an inverted or entirely
out-of-range window yields the empty list.  The ZRANGE command used by the
SortedSet adapter follows the same index rules, so the same function embeds
both commands. -/
def lrange {α : Type} (l : List α) (start stop : Int) : List α :=
  let n : Int := (l.length : Int)
  let s : Int := if start < 0 then max (n + start) 0 else start
  let e : Int := if stop < 0 then n + stop else stop
  if s > e ∨ s ≥ n then []
  else (l.take (e.toNat + 1)).drop s.toNat

/-- Embedding of `List.__getslice__(i, j)` from the List adapter: it issues
`lrange(name, i, j - 1)`, translating the local stop-exclusive bound to the
store's inclusive-end convention. -/
def getslice {α : Type} (l : List α) (i j : Int) : List α :=
  lrange l i (j - 1)

/-- On non-negative translated bounds `i` and `j - 1` with `j ≥ 1`, the
inclusive `lrange` window `[i, j-1]` is the stop-exclusive window `[i, j)`. -/
theorem lrange_pred_eq_take_drop {α : Type} (l : List α) (i j : Nat)
    (hj : 1 ≤ j) :
    lrange l (i : Int) ((j : Int) - 1) = (l.take j).drop i := by
  simp only [lrange]
  have hs : ¬ ((i : Int) < 0) := by omega
  have he : ¬ (((j : Int) - 1) < 0) := by omega
  simp only [hs, he, if_false]
  split
  · rename_i h
    have hlen : (l.take j).length = min j l.length := l.length_take j
    have : (l.take j).length ≤ i := by omega
    exact (List.drop_eq_nil_of_le this).symm
  · rename_i h
    have h1 : ((j : Int) - 1).toNat + 1 = j := by omega
    have h2 : ((i : Int)).toNat = i := by omega
    rw [h1, h2]

/-- The inclusive end index -2 produced by the itemsview slice translation
selects positions `i` through `length - 2`: everything but the last item. -/
theorem lrange_neg_two_eq_dropLast {α : Type} (l : List α) (i : Nat) :
    lrange l (i : Int) (-2) = l.dropLast.drop i := by
  simp only [lrange]
  have hs : ¬ ((i : Int) < 0) := by omega
  have he : ((-2 : Int) < 0) := by omega
  simp only [hs, he, if_true, if_false]
  split
  · rename_i h
    have hlen : l.dropLast.length = l.length - 1 := l.length_dropLast
    have : l.dropLast.length ≤ i := by omega
    exact (List.drop_eq_nil_of_le this).symm
  · rename_i h
    have h1 : ((l.length : Int) + -2).toNat + 1 = l.length - 1 := by omega
    have h2 : ((i : Int)).toNat = i := by omega
    rw [h1, h2, ← List.dropLast_eq_take]

/-- C3 (amended): for non-negative indices with `j ≥ 1`, the List adapter's
stop-exclusive `slice(i, j)` returns exactly the elements at zero-based
positions `i` through `j - 1` (the empty sequence when `j ≤ i`), by issuing
the store's inclusive-end range command with end `j - 1`.  (For `j = 0` the
translated end index is `-1`, which the store reads as the last position, so
`slice(i, 0)` returns the elements from position `i` through the end instead
of the empty sequence; see the counterexample.) -/
theorem list_getslice_spec {α : Type} (l : List α) (i j : Nat) (hj : 1 ≤ j) :
    getslice l (i : Int) (j : Int) = (l.take j).drop i :=
  lrange_pred_eq_take_drop l i j hj

/-- C3 witness: `slice(0, 3)` on `[a, b, c, d]` returns `[a, b, c]`. -/
theorem list_getslice_spec_witness :
    getslice (["a", "b", "c", "d"] : List String) 0 3 = ["a", "b", "c"] := by
  have h := list_getslice_spec (["a", "b", "c", "d"] : List String) 0 3
    (by decide)
  simpa using h

/-- C3 counterexample: `slice(0, 0)` on the one-element list `["a"]` issues
the range command with end `0 - 1 = -1`, which denotes the last position, so
the whole list comes back instead of the empty sequence the claim requires
for `j ≤ i`. -/
theorem list_getslice_cex :
    getslice (["a"] : List String) 0 0 = ["a"] ∧
    getslice (["a"] : List String) 0 0 ≠ [] := by
  refine ⟨rfl, ?_⟩
  intro h
  simp [getslice, lrange] at h

/-- Embedding of `s.start or 0` from `_itemsview.__getitem__` and
`SortedSet.__getitem__`: a missing (`None`) start, and likewise a start
equal to `0` (falsy in Python), both give `0`. -/
def sliceStart (start? : Option Int) : Int :=
  match start? with
  | none => 0
  | some v => if v = 0 then 0 else v

/-- Embedding of `j = (s.stop or -1) - 1` from `_itemsview.__getitem__` and
`SortedSet.__getitem__`: a missing (`None`) stop, and likewise a stop equal
to `0` (falsy in Python), are first replaced by `-1`, and then the
exclusive-to-inclusive adjustment subtracts one. -/
def sliceStop (stop? : Option Int) : Int :=
  (match stop? with
   | none => -1
   | some v => if v = 0 then -1 else v) - 1

/-- Embedding of the slice case of `_itemsview.__getitem__` (and of
`SortedSet.__getitem__`) over the materialized item sequence of the sorted
set: derive the inclusive bounds and delegate to the range command. -/
def itemsviewSlice {α : Type} (items : List α) (start? stop? : Option Int) :
    List α :=
  lrange items (sliceStart start?) (sliceStop stop?)

/-- Embedding of the single-index case of `_itemsview.__getitem__`: it
requests the one-position range `[k, k]` and takes element `[0]` of the
reply; indexing an empty reply raises IndexError, modelled as `none`. -/
def itemsviewGet {α : Type} (items : List α) (k : Int) : Option α :=
  (lrange items k k).head?

/-- C9 (amended): over the items of a sorted set, the view's slice `[i:j]`
returns exactly the items at zero-based positions `i` through `j - 1`
(stop-exclusive) whenever `j ≥ 1`, and single-index access `[k]` returns
the item at position `k` for `0 ≤ k <` length.  The two edge cases in the
claim are however translated to the inclusive end index `-2`: with `j = 0`
or an omitted stop, the result is the items at positions `i` through
`length - 2` — everything but the last item — rather than the empty list
respectively everything from `i` through the last position. -/
theorem itemsview_getitem_spec {α : Type} (items : List α) (i j k : Nat)
    (hj : 1 ≤ j) (hk : k < items.length) :
    itemsviewSlice items (some (i : Int)) (some (j : Int))
      = (items.take j).drop i ∧
    itemsviewSlice items (some (i : Int)) none = items.dropLast.drop i ∧
    itemsviewSlice items (some (i : Int)) (some 0) = items.dropLast.drop i ∧
    itemsviewGet items (k : Int) = some items[k] := by
  have hstart : ∀ v : Int, sliceStart (some v) = v := by
    intro v
    simp only [sliceStart]
    split <;> omega
  refine ⟨?_, ?_, ?_, ?_⟩
  · have hstop : sliceStop (some (j : Int)) = (j : Int) - 1 := by
      simp only [sliceStop]
      split <;> omega
    rw [itemsviewSlice, hstart, hstop]
    exact lrange_pred_eq_take_drop items i j hj
  · rw [itemsviewSlice, hstart]
    exact lrange_neg_two_eq_dropLast items i
  · have hstop : sliceStop (some 0) = -2 := by decide
    rw [itemsviewSlice, hstart, hstop]
    exact lrange_neg_two_eq_dropLast items i
  · rw [itemsviewGet]
    simp only [lrange]
    have hs : ¬ ((k : Int) < 0) := by omega
    simp only [hs, if_false]
    have hcond : ¬ ((k : Int) > (k : Int) ∨ (k : Int) ≥ (items.length : Int)) := by
      omega
    rw [if_neg hcond]
    have h2 : ((k : Int)).toNat = k := by omega
    rw [h2, List.drop_take]
    have hdrop : k < (items.drop k).length + k := by
      rw [List.length_drop]; omega
    have : items.drop k = items[k] :: items.drop (k + 1) := by
      exact (List.drop_eq_getElem_cons hk).symm ▸ rfl
    rw [show k + 1 - k = 1 by omega, this]
    rfl

/-- C9 witness: on the three-item sequence `[5, 6, 7]`, the view slice
`[1:2]` is `[6]`, the edge cases `[1:]` and `[1:0]` also evaluate (to all
but the last item, from position 1), and single-index access `[1]` is `6`. -/
theorem itemsview_getitem_spec_witness :
    itemsviewSlice ([5, 6, 7] : List Nat) (some 1) (some 2) = [6] ∧
    itemsviewSlice ([5, 6, 7] : List Nat) (some 1) none = [6] ∧
    itemsviewSlice ([5, 6, 7] : List Nat) (some 1) (some 0) = [6] ∧
    itemsviewGet ([5, 6, 7] : List Nat) 1 = some 6 := by
  have h := itemsview_getitem_spec ([5, 6, 7] : List Nat) 1 2 1
    (by decide) (by decide)
  simpa using h

/-- C9 counterexample: on the two-item sequence `[10, 20]`, the view slice
with stop bound `0` returns `[10]` (all but the last item) instead of the
empty list the claim requires, and the slice with an omitted stop also
returns `[10]` instead of all items from position 0 through the last. -/
theorem itemsview_getitem_cex :
    itemsviewSlice ([10, 20] : List Nat) (some 0) (some 0) = [10] ∧
    itemsviewSlice ([10, 20] : List Nat) (some 0) none = [10] ∧
    ([10] : List Nat) ≠ [] ∧
    ([10] : List Nat) ≠ [10, 20] := by
  exact ⟨rfl, rfl, by decide, by decide⟩

/-- Errors raised by the Queue adapter: `Queue.Full` and `Queue.Empty`. -/
inductive QueueErr : Type where
  | full : QueueErr
  | empty : QueueErr
deriving DecidableEq

/-- State of a Queue adapter: the optional maximum size (0 means unbounded)
and the backing remote list, with the list head at the front. -/
structure RQueue (α : Type) where
  maxsize : Nat
  items : List α
deriving DecidableEq

/-- Embedding of the Redis RPOP command (`List.pop`): remove and return the
tail element of the list, or `none` when the list is empty. -/
def rpop {α : Type} : List α → Option (α × List α)
  | [] => none
  | x :: xs =>
    match rpop xs with
    | none => some (x, [])
    | some (y, ys) => some (y, x :: ys)

/-- Embedding of the Redis LPOP command (`List.popleft`): remove and return
the head element of the list, or `none` when the list is empty. -/
def lpop {α : Type} : List α → Option (α × List α)
  | [] => none
  | x :: xs => some (x, xs)

/-- Embedding of `Queue.full`: the Python expression
`self.maxsize and len(self.list) >= self.maxsize or False` is `False` when
`maxsize` is 0 (falsy), and otherwise the comparison. -/
def qfull {α : Type} (q : RQueue α) : Bool :=
  (q.maxsize != 0) && decide (q.maxsize ≤ q.items.length)

/-- Embedding of `Queue.put` (shared by `LifoQueue`): raise `Full` when
`full()` reports true, otherwise push the item onto the head of the backing
list (`self._append = self.list.appendleft`, the LPUSH command). -/
def qput {α : Type} (q : RQueue α) (x : α) : Except QueueErr (RQueue α) :=
  if qfull q then Except.error QueueErr.full
  else Except.ok ⟨q.maxsize, x :: q.items⟩

/-- Embedding of `Queue.get_nowait` for the FIFO queue: `self._pop` is
`self.list.pop`, the RPOP command on the tail; an empty reply raises
`Empty`. -/
def fifoGetNoWait {α : Type} (q : RQueue α) :
    Except QueueErr (α × RQueue α) :=
  match rpop q.items with
  | some (x, rest) => Except.ok (x, ⟨q.maxsize, rest⟩)
  | none => Except.error QueueErr.empty

/-- Embedding of `Queue.get_nowait` for the LIFO queue (`LifoQueue` rebinds
`self._pop` to `self.list.popleft`, the LPOP command on the head). -/
def lifoGetNoWait {α : Type} (q : RQueue α) :
    Except QueueErr (α × RQueue α) :=
  match lpop q.items with
  | some (x, rest) => Except.ok (x, ⟨q.maxsize, rest⟩)
  | none => Except.error QueueErr.empty

/-- C4: on an empty unbounded queue, `put(x1); put(x2); put(x3)` pushes each
item onto the head of the backing list, leaving `[x3, x2, x1]`; three FIFO
`getNoWait()` calls then pop from the tail and return `x1, x2, x3` in that
order, while three LIFO `getNoWait()` calls pop from the head and return
`x3, x2, x1`. -/
theorem queue_fifo_lifo_order {α : Type} (x1 x2 x3 : α) :
    qput (⟨0, []⟩ : RQueue α) x1 = Except.ok ⟨0, [x1]⟩ ∧
    qput (⟨0, [x1]⟩ : RQueue α) x2 = Except.ok ⟨0, [x2, x1]⟩ ∧
    qput (⟨0, [x2, x1]⟩ : RQueue α) x3 = Except.ok ⟨0, [x3, x2, x1]⟩ ∧
    fifoGetNoWait (⟨0, [x3, x2, x1]⟩ : RQueue α)
      = Except.ok (x1, ⟨0, [x3, x2]⟩) ∧
    fifoGetNoWait (⟨0, [x3, x2]⟩ : RQueue α) = Except.ok (x2, ⟨0, [x3]⟩) ∧
    fifoGetNoWait (⟨0, [x3]⟩ : RQueue α) = Except.ok (x3, ⟨0, []⟩) ∧
    lifoGetNoWait (⟨0, [x3, x2, x1]⟩ : RQueue α)
      = Except.ok (x3, ⟨0, [x2, x1]⟩) ∧
    lifoGetNoWait (⟨0, [x2, x1]⟩ : RQueue α) = Except.ok (x2, ⟨0, [x1]⟩) ∧
    lifoGetNoWait (⟨0, [x1]⟩ : RQueue α) = Except.ok (x1, ⟨0, []⟩) :=
  ⟨rfl, rfl, rfl, rfl, rfl, rfl, rfl, rfl, rfl⟩

/-- C5: with `maxSize = m > 0`, `full()` is false exactly while the backing
list is shorter than `m` and true once its length reaches `m`; with
`maxSize = 0` it is always false; `put` raises `QueueFull` exactly when
`full()` reports true at the time of the call, and otherwise pushes the item
onto the queue's insertion end (the head of the backing list). -/
theorem queue_full_put_spec {α : Type} (m : Nat) (l : List α) (x : α)
    (hm : 0 < m) :
    (l.length < m → qfull (⟨m, l⟩ : RQueue α) = false) ∧
    (m ≤ l.length → qfull (⟨m, l⟩ : RQueue α) = true) ∧
    qfull (⟨0, l⟩ : RQueue α) = false ∧
    (qfull (⟨m, l⟩ : RQueue α) = true →
      qput (⟨m, l⟩ : RQueue α) x = Except.error QueueErr.full) ∧
    (qfull (⟨m, l⟩ : RQueue α) = false →
      qput (⟨m, l⟩ : RQueue α) x = Except.ok ⟨m, x :: l⟩) := by
  refine ⟨?_, ?_, ?_, ?_, ?_⟩
  · intro h
    simp [qfull]
    omega
  · intro h
    simp [qfull]
    omega
  · simp [qfull]
  · intro h
    simp [qput, h]
  · intro h
    simp [qput, h]

/-- C5 witness: a queue with `maxSize = 2` is not full at one element, and a
`put` succeeds there; it is full at two elements, and a `put` then raises
`QueueFull`; `maxSize = 0` at the same length is never full. -/
theorem queue_full_put_spec_witness :
    qfull (⟨2, ["a"]⟩ : RQueue String) = false ∧
    qput (⟨2, ["a"]⟩ : RQueue String) "b" = Except.ok ⟨2, ["b", "a"]⟩ ∧
    qfull (⟨2, ["b", "a"]⟩ : RQueue String) = true ∧
    qput (⟨2, ["b", "a"]⟩ : RQueue String) "c"
      = Except.error QueueErr.full ∧
    qfull (⟨0, ["b", "a"]⟩ : RQueue String) = false := by
  have h1 := queue_full_put_spec (α := String) 2 ["a"] "b" (by decide)
  have h2 := queue_full_put_spec (α := String) 2 ["b", "a"] "c" (by decide)
  refine ⟨h1.1 (by decide), ?_, h2.2.1 (by decide), ?_, h2.2.2.1⟩
  · exact h1.2.2.2.2 (h1.1 (by decide))
  · exact h2.2.2.2.1 (h2.2.1 (by decide))

/-- Embedding of the Redis HGET command on a materialized hash, modelled as
an association list of `(field, value)` pairs: the value of the first entry
for the field, or `none` when the field is absent. -/
def hget (d : List (String × String)) (k : String) : Option String :=
  (d.find? (fun p => p.1 == k)).map Prod.snd

/-- Embedding of the Redis HDEL command: the number of entries removed for
the field, paired with the hash with those entries removed. -/
def hdel (d : List (String × String)) (k : String) :
    Nat × List (String × String) :=
  ((d.filter (fun p => p.1 == k)).length, d.filter (fun p => p.1 != k))

/-- Embedding of `Dict.__delitem__`: HDEL the field and raise `KeyError`
when the store reports that nothing was deleted. -/
def delitem (d : List (String × String)) (k : String) :
    Except Unit (List (String × String)) :=
  if (hdel d k).1 = 0 then Except.error () else Except.ok (hdel d k).2

/-- Embedding of `Dict.__getitem__`: HGET the field; on a missing field,
consult the class-level missing-key hook (`hasattr(self.__class__,
"__missing__")`, modelled by the optional `hook` argument) before raising
`KeyError`. -/
def getitem (hook : Option (String → String)) (d : List (String × String))
    (k : String) : Except Unit String :=
  match hget d k with
  | some v => Except.ok v
  | none =>
    match hook with
    | some f => Except.ok (f k)
    | none => Except.error ()

/-- Embedding of `Dict.get` (`getOrDefault`): evaluate `self[key]` and turn
a raised `KeyError` into the supplied default. -/
def dictGet (hook : Option (String → String)) (d : List (String × String))
    (k dv : String) : String :=
  match getitem hook d k with
  | Except.ok v => v
  | Except.error _ => dv

/-- Embedding of `Dict.pop` (`popWithDefault`): read `self[key]`; if that
raises `KeyError`, return the first positional extra argument if one was
given, else the `default` keyword argument if one was given, else re-raise;
if the read succeeds, delete the key — ignoring a `KeyError` raised by the
delete itself — and return the previously-read value together with the
resulting hash. -/
def dictPop (hook : Option (String → String)) (d : List (String × String))
    (k : String) (args : List String) (kwDefault : Option String) :
    Except Unit (String × List (String × String)) :=
  match getitem hook d k with
  | Except.error e =>
    match args with
    | a :: _ => Except.ok (a, d)
    | [] =>
      match kwDefault with
      | some v => Except.ok (v, d)
      | none => Except.error e
  | Except.ok v =>
    match delitem d k with
    | Except.error _ => Except.ok (v, d)
    | Except.ok d2 => Except.ok (v, d2)

/-- C6: on the plain Mapping (no missing-key hook), `popWithDefault(k)` with
a default `D` supplied positionally or by keyword returns `D` without
raising when `k` is absent; with no default supplied it raises `KeyError`
when `k` is absent; and when `k` is present (with or without a default) it
returns the value read for `k` and deletes `k` — afterwards `k` is no
longer in the hash. -/
theorem dict_pop_spec (d : List (String × String)) (k dv : String) :
    (hget d k = none →
      dictPop none d k [dv] none = Except.ok (dv, d)) ∧
    (hget d k = none →
      dictPop none d k [] (some dv) = Except.ok (dv, d)) ∧
    (hget d k = none → dictPop none d k [] none = Except.error ()) ∧
    (∀ v, hget d k = some v →
      dictPop none d k [] none = Except.ok (v, (hdel d k).2) ∧
      dictPop none d k [dv] none = Except.ok (v, (hdel d k).2) ∧
      hget (hdel d k).2 k = none) := by
  refine ⟨?_, ?_, ?_, ?_⟩
  · intro h
    simp [dictPop, getitem, h]
  · intro h
    simp [dictPop, getitem, h]
  · intro h
    simp [dictPop, getitem, h]
  · intro v h
    have hmem : ∃ p ∈ d, (p.1 == k) = true ∧ p.2 = v := by
      rcases Option.map_eq_some'.mp h with ⟨p, hp, hv⟩
      have hpk := List.find?_some hp
      exact ⟨p, List.mem_of_find?_eq_some hp, hpk, hv⟩
    have hcount : (hdel d k).1 ≠ 0 := by
      rcases hmem with ⟨p, hpd, hpk, _⟩
      have hpf : p ∈ d.filter (fun p => p.1 == k) :=
        List.mem_filter.mpr ⟨hpd, hpk⟩
      have hlen : 0 < (d.filter (fun p => p.1 == k)).length :=
        List.length_pos.mpr (List.ne_nil_of_mem hpf)
      simp only [hdel]
      omega
    have hdelok : delitem d k = Except.ok (hdel d k).2 := by
      simp [delitem, hcount]
    have hgone : hget (hdel d k).2 k = none := by
      simp only [hget, Option.map_eq_none']
      apply List.find?_eq_none.mpr
      intro p hp
      have := (List.mem_filter.mp hp).2
      simpa using this
    refine ⟨?_, ?_, hgone⟩
    · simp [dictPop, getitem, h, hdelok]
    · simp [dictPop, getitem, h, hdelok]

/-- C6 witness: with the hash `{a: 1}`, popping the absent key `b` with
default `D` (positionally or by keyword) returns `D` unchanged, popping it
with no default raises `KeyError`, and popping the present key `a` returns
`1` and deletes the entry. -/
theorem dict_pop_spec_witness :
    dictPop none [("a", "1")] "b" ["D"] none = Except.ok ("D", [("a", "1")]) ∧
    dictPop none [("a", "1")] "b" [] (some "D")
      = Except.ok ("D", [("a", "1")]) ∧
    dictPop none [("a", "1")] "b" [] none = Except.error () ∧
    dictPop none [("a", "1")] "a" [] none = Except.ok ("1", []) := by
  have hb := dict_pop_spec [("a", "1")] "b" "D"
  have ha := dict_pop_spec [("a", "1")] "a" "D"
  refine ⟨hb.1 (by decide), hb.2.1 (by decide), hb.2.2.1 (by decide), ?_⟩
  have h := (ha.2.2.2 "1" (by decide)).1
  simpa [hdel] using h

/-- C7 (amended): the missing-key hook is consulted inside every lookup that
goes through `__getitem__`, whether or not a default is supplied: with a
hook registered, `get(k)` on a missing key returns the hook's result instead
of raising, and `getOrDefault(k, default)` on a missing key ALSO invokes the
hook and returns the hook's result rather than the supplied default (the
hook's success means no `KeyError` reaches the default path); the supplied
default is returned only when no hook is registered. -/
theorem dict_missing_hook_spec (f : String → String)
    (d : List (String × String)) (k dv : String) (habs : hget d k = none) :
    getitem (some f) d k = Except.ok (f k) ∧
    dictGet (some f) d k dv = f k ∧
    getitem none d k = Except.error () ∧
    dictGet none d k dv = dv := by
  refine ⟨?_, ?_, ?_, ?_⟩ <;> simp [getitem, dictGet, habs]

/-- C7 witness: on the empty hash with the hook returning `"H"`, `get(k)`
yields `"H"`; without a hook, `get(k)` raises and `getOrDefault(k, "D")`
yields `"D"`. -/
theorem dict_missing_hook_spec_witness :
    getitem (some (fun _ => "H")) [] "k" = Except.ok "H" ∧
    dictGet (some (fun _ => "H")) [] "k" "D" = "H" ∧
    getitem none [] "k" = Except.error () ∧
    dictGet none [] "k" "D" = "D" := by
  have h := dict_missing_hook_spec (fun _ => "H") [] "k" "D" (by decide)
  simpa using h

/-- C7 counterexample: with the hook returning `"H"` registered, the lookup
`getOrDefault(k, "D")` on a missing key returns the hook's result `"H"`,
not the supplied default `"D"` — the hook is invoked even though a default
was supplied, contrary to the claim. -/
theorem dict_missing_hook_cex :
    dictGet (some (fun _ => "H")) [] "k" "D" = "H" ∧
    ("H" : String) ≠ "D" :=
  ⟨rfl, by decide⟩

/-- Python exception kinds raised by the Counter embedding:
`AttributeError` for a method lookup that finds nothing on the `int` type,
`ZeroDivisionError` for division-like operators with a zero divisor, and
`ValueError` for a negative shift count. -/
inductive PyExc : Type where
  | attributeError : PyExc
  | zeroDivisionError : PyExc
  | valueError : PyExc
deriving DecidableEq

/-- A value produced by a binary method of the Python `int` type: an `int`,
a `float` (true division always, and exponentiation with a negative
exponent), or the 2-tuple of quotient and remainder produced by `divmod`.
A `float` result is modelled by the exact rational number Python rounds to
the nearest double; the IEEE rounding step itself is outside the model. -/
inductive PyNum : Type where
  | int : Int → PyNum
  | float : ℚ → PyNum
  | tuple : Int → Int → PyNum
deriving DecidableEq

/-- The binary-operator methods of the built-in Python 3 `int` type, as a
name-indexed table of partial functions: `__op__(self, other)` computes
`self op other` and the reflected `__rop__(self, other)` computes
`other op self`, each raising exactly where Python raises.  Floor division,
modulo and `divmod` follow Python's sign-of-the-divisor convention, which is
exactly `Int.fdiv`/`Int.fmod`, and raise `ZeroDivisionError` on a zero
divisor, as does true division; `**` stays in `int` for a non-negative
exponent, raises `ZeroDivisionError` for a zero base with a negative
exponent, and otherwise yields a float; the shifts raise `ValueError` on a
negative shift count.  Looking up a name with no entry models
`AttributeError`: in particular the Python 3 `int` type has no method named
`__shift__`, and none named `__div__` or `__rdiv__` either (those died with
Python 2; the `/` operator uses `__truediv__`). -/
def pyIntMethod : String → Option (Int → Int → Except PyExc PyNum)
  | "__add__" => some (fun s o => Except.ok (PyNum.int (s + o)))
  | "__radd__" => some (fun s o => Except.ok (PyNum.int (o + s)))
  | "__sub__" => some (fun s o => Except.ok (PyNum.int (s - o)))
  | "__rsub__" => some (fun s o => Except.ok (PyNum.int (o - s)))
  | "__mul__" => some (fun s o => Except.ok (PyNum.int (s * o)))
  | "__rmul__" => some (fun s o => Except.ok (PyNum.int (o * s)))
  | "__truediv__" => some (fun s o =>
      if o = 0 then Except.error PyExc.zeroDivisionError
      else Except.ok (PyNum.float ((s : ℚ) / (o : ℚ))))
  | "__rtruediv__" => some (fun s o =>
      if s = 0 then Except.error PyExc.zeroDivisionError
      else Except.ok (PyNum.float ((o : ℚ) / (s : ℚ))))
  | "__floordiv__" => some (fun s o =>
      if o = 0 then Except.error PyExc.zeroDivisionError
      else Except.ok (PyNum.int (Int.fdiv s o)))
  | "__rfloordiv__" => some (fun s o =>
      if s = 0 then Except.error PyExc.zeroDivisionError
      else Except.ok (PyNum.int (Int.fdiv o s)))
  | "__mod__" => some (fun s o =>
      if o = 0 then Except.error PyExc.zeroDivisionError
      else Except.ok (PyNum.int (Int.fmod s o)))
  | "__rmod__" => some (fun s o =>
      if s = 0 then Except.error PyExc.zeroDivisionError
      else Except.ok (PyNum.int (Int.fmod o s)))
  | "__divmod__" => some (fun s o =>
      if o = 0 then Except.error PyExc.zeroDivisionError
      else Except.ok (PyNum.tuple (Int.fdiv s o) (Int.fmod s o)))
  | "__rdivmod__" => some (fun s o =>
      if s = 0 then Except.error PyExc.zeroDivisionError
      else Except.ok (PyNum.tuple (Int.fdiv o s) (Int.fmod o s)))
  | "__pow__" => some (fun s o =>
      if 0 ≤ o then Except.ok (PyNum.int (s ^ o.toNat))
      else if s = 0 then Except.error PyExc.zeroDivisionError
      else Except.ok (PyNum.float ((s : ℚ) ^ o)))
  | "__rpow__" => some (fun s o =>
      if 0 ≤ s then Except.ok (PyNum.int (o ^ s.toNat))
      else if o = 0 then Except.error PyExc.zeroDivisionError
      else Except.ok (PyNum.float ((o : ℚ) ^ s)))
  | "__lshift__" => some (fun s o =>
      if o < 0 then Except.error PyExc.valueError
      else Except.ok (PyNum.int (s * 2 ^ o.toNat)))
  | "__rlshift__" => some (fun s o =>
      if s < 0 then Except.error PyExc.valueError
      else Except.ok (PyNum.int (o * 2 ^ s.toNat)))
  | "__rshift__" => some (fun s o =>
      if o < 0 then Except.error PyExc.valueError
      else Except.ok (PyNum.int (Int.fdiv s (2 ^ o.toNat))))
  | "__rrshift__" => some (fun s o =>
      if s < 0 then Except.error PyExc.valueError
      else Except.ok (PyNum.int (Int.fdiv o (2 ^ s.toNat))))
  | "__and__" => some (fun s o => Except.ok (PyNum.int (Int.land s o)))
  | "__rand__" => some (fun s o => Except.ok (PyNum.int (Int.land o s)))
  | "__or__" => some (fun s o => Except.ok (PyNum.int (Int.lor s o)))
  | "__ror__" => some (fun s o => Except.ok (PyNum.int (Int.lor o s)))
  | "__xor__" => some (fun s o => Except.ok (PyNum.int (Int.xor s o)))
  | "__rxor__" => some (fun s o => Except.ok (PyNum.int (Int.xor o s)))
  | _ => none

/-- Embedding of the dispatch `type(other).<name>(other, v)` performed by
every binary method of the Counter class, for an `int` right argument
`other` and the Counter's stored value `v = self.__int__()`: look the name
up on the `int` type and call the method — which may itself raise — or
raise `AttributeError` when the `int` type has no method of that name. -/
def pyIntCall (name : String) (other v : Int) : Except PyExc PyNum :=
  match pyIntMethod name with
  | some f => f other v
  | none => Except.error PyExc.attributeError

/-- Embedding of `Int.__add__`: `type(other).__radd__(other, self.__int__())`. -/
def counterAdd (v n : Int) : Except PyExc PyNum := pyIntCall "__radd__" n v

/-- Embedding of `Int.__radd__`: `type(other).__add__(other, self.__int__())`. -/
def counterRAdd (v n : Int) : Except PyExc PyNum := pyIntCall "__add__" n v

/-- Embedding of `Int.__sub__`: `type(other).__rsub__(other, self.__int__())`. -/
def counterSub (v n : Int) : Except PyExc PyNum := pyIntCall "__rsub__" n v

/-- Embedding of `Int.__rsub__`: `type(other).__sub__(other, self.__int__())`. -/
def counterRSub (v n : Int) : Except PyExc PyNum := pyIntCall "__sub__" n v

/-- Embedding of `Int.__mul__`: `type(other).__rmul__(other, self.__int__())`. -/
def counterMul (v n : Int) : Except PyExc PyNum := pyIntCall "__rmul__" n v

/-- Embedding of `Int.__rmul__`: `type(other).__mul__(other, self.__int__())`. -/
def counterRMul (v n : Int) : Except PyExc PyNum := pyIntCall "__mul__" n v

/-- Embedding of `Int.__truediv__` (the `/` operator in Python 3):
`type(other).__rtruediv__(other, self.__int__())`. -/
def counterTruediv (v n : Int) : Except PyExc PyNum :=
  pyIntCall "__rtruediv__" n v

/-- Embedding of `Int.__rtruediv__`:
`type(other).__truediv__(other, self.__int__())`. -/
def counterRTruediv (v n : Int) : Except PyExc PyNum :=
  pyIntCall "__truediv__" n v

/-- Embedding of `Int.__div__`: `type(other).__rdiv__(other,
self.__int__())`.  Under Python 3 the `int` type has no `__rdiv__`, so this
method — itself never invoked by any operator in Python 3, where `/`
dispatches onto `__truediv__` — raises `AttributeError`. -/
def counterDiv (v n : Int) : Except PyExc PyNum := pyIntCall "__rdiv__" n v

/-- Embedding of `Int.__rdiv__`: `type(other).__div__(other,
self.__int__())`; like `__div__`, dead in Python 3 and an `AttributeError`
when called. -/
def counterRDiv (v n : Int) : Except PyExc PyNum := pyIntCall "__div__" n v

/-- Embedding of `Int.__floordiv__`:
`type(other).__rfloordiv__(other, self.__int__())`. -/
def counterFloordiv (v n : Int) : Except PyExc PyNum :=
  pyIntCall "__rfloordiv__" n v

/-- Embedding of `Int.__rfloordiv__`:
`type(other).__floordiv__(other, self.__int__())`. -/
def counterRFloordiv (v n : Int) : Except PyExc PyNum :=
  pyIntCall "__floordiv__" n v

/-- Embedding of `Int.__mod__`: `type(other).__rmod__(other, self.__int__())`. -/
def counterMod (v n : Int) : Except PyExc PyNum := pyIntCall "__rmod__" n v

/-- Embedding of `Int.__rmod__`: `type(other).__mod__(other, self.__int__())`. -/
def counterRMod (v n : Int) : Except PyExc PyNum := pyIntCall "__mod__" n v

/-- Embedding of `Int.__divmod__`:
`type(other).__rdivmod__(other, self.__int__())`. -/
def counterDivmod (v n : Int) : Except PyExc PyNum :=
  pyIntCall "__rdivmod__" n v

/-- Embedding of `Int.__rdivmod__`:
`type(other).__divmod__(other, self.__int__())`. -/
def counterRDivmod (v n : Int) : Except PyExc PyNum :=
  pyIntCall "__divmod__" n v

/-- Embedding of `Int.__pow__`: `type(other).__rpow__(other, self.__int__())`. -/
def counterPow (v n : Int) : Except PyExc PyNum := pyIntCall "__rpow__" n v

/-- Embedding of `Int.__rpow__`: `type(other).__pow__(other, self.__int__())`. -/
def counterRPow (v n : Int) : Except PyExc PyNum := pyIntCall "__pow__" n v

/-- Embedding of `Int.__lshift__`:
`type(other).__rlshift__(other, self.__int__())`. -/
def counterLshift (v n : Int) : Except PyExc PyNum :=
  pyIntCall "__rlshift__" n v

/-- Embedding of `Int.__rlshift__`:
`type(other).__lshift__(other, self.__int__())`. -/
def counterRLshift (v n : Int) : Except PyExc PyNum :=
  pyIntCall "__lshift__" n v

/-- Embedding of `Int.__rshift__`:
`type(other).__rrshift__(other, self.__int__())`. -/
def counterRshift (v n : Int) : Except PyExc PyNum :=
  pyIntCall "__rrshift__" n v

/-- Embedding of `Int.__rrshift__`: the source reads
`type(other).__shift__(other, self.__int__())` — it asks the `int` type for
a method named `__shift__`, which does not exist. -/
def counterRRshift (v n : Int) : Except PyExc PyNum :=
  pyIntCall "__shift__" n v

/-- Embedding of `Int.__and__`: `type(other).__rand__(other, self.__int__())`. -/
def counterAnd (v n : Int) : Except PyExc PyNum := pyIntCall "__rand__" n v

/-- Embedding of `Int.__rand__`: `type(other).__and__(other, self.__int__())`. -/
def counterRAnd (v n : Int) : Except PyExc PyNum := pyIntCall "__and__" n v

/-- Embedding of `Int.__or__`: `type(other).__ror__(other, self.__int__())`. -/
def counterOr (v n : Int) : Except PyExc PyNum := pyIntCall "__ror__" n v

/-- Embedding of `Int.__ror__`: `type(other).__or__(other, self.__int__())`. -/
def counterROr (v n : Int) : Except PyExc PyNum := pyIntCall "__or__" n v

/-- Embedding of `Int.__xor__`: `type(other).__rxor__(other, self.__int__())`. -/
def counterXor (v n : Int) : Except PyExc PyNum := pyIntCall "__rxor__" n v

/-- Embedding of `Int.__rxor__`: `type(other).__xor__(other, self.__int__())`. -/
def counterRXor (v n : Int) : Except PyExc PyNum := pyIntCall "__xor__" n v

/-- Reduction of the true-division dispatches. -/
theorem counterTruediv_eq (v n : Int) :
    counterTruediv v n
      = (if n = 0 then Except.error PyExc.zeroDivisionError
         else Except.ok (PyNum.float ((v : ℚ) / (n : ℚ)))) ∧
    counterRTruediv v n
      = (if v = 0 then Except.error PyExc.zeroDivisionError
         else Except.ok (PyNum.float ((n : ℚ) / (v : ℚ)))) :=
  ⟨rfl, rfl⟩

/-- Reduction of the floor-division dispatches. -/
theorem counterFloordiv_eq (v n : Int) :
    counterFloordiv v n
      = (if n = 0 then Except.error PyExc.zeroDivisionError
         else Except.ok (PyNum.int (Int.fdiv v n))) ∧
    counterRFloordiv v n
      = (if v = 0 then Except.error PyExc.zeroDivisionError
         else Except.ok (PyNum.int (Int.fdiv n v))) :=
  ⟨rfl, rfl⟩

/-- Reduction of the modulo dispatches. -/
theorem counterMod_eq (v n : Int) :
    counterMod v n
      = (if n = 0 then Except.error PyExc.zeroDivisionError
         else Except.ok (PyNum.int (Int.fmod v n))) ∧
    counterRMod v n
      = (if v = 0 then Except.error PyExc.zeroDivisionError
         else Except.ok (PyNum.int (Int.fmod n v))) :=
  ⟨rfl, rfl⟩

/-- Reduction of the divmod dispatches. -/
theorem counterDivmod_eq (v n : Int) :
    counterDivmod v n
      = (if n = 0 then Except.error PyExc.zeroDivisionError
         else Except.ok (PyNum.tuple (Int.fdiv v n) (Int.fmod v n))) ∧
    counterRDivmod v n
      = (if v = 0 then Except.error PyExc.zeroDivisionError
         else Except.ok (PyNum.tuple (Int.fdiv n v) (Int.fmod n v))) :=
  ⟨rfl, rfl⟩

/-- Reduction of the exponentiation dispatches. -/
theorem counterPow_eq (v n : Int) :
    counterPow v n
      = (if 0 ≤ n then Except.ok (PyNum.int (v ^ n.toNat))
         else if v = 0 then Except.error PyExc.zeroDivisionError
         else Except.ok (PyNum.float ((v : ℚ) ^ n))) ∧
    counterRPow v n
      = (if 0 ≤ v then Except.ok (PyNum.int (n ^ v.toNat))
         else if n = 0 then Except.error PyExc.zeroDivisionError
         else Except.ok (PyNum.float ((n : ℚ) ^ v))) :=
  ⟨rfl, rfl⟩

/-- Reduction of the left-shift dispatches. -/
theorem counterLshift_eq (v n : Int) :
    counterLshift v n
      = (if n < 0 then Except.error PyExc.valueError
         else Except.ok (PyNum.int (v * 2 ^ n.toNat))) ∧
    counterRLshift v n
      = (if v < 0 then Except.error PyExc.valueError
         else Except.ok (PyNum.int (n * 2 ^ v.toNat))) :=
  ⟨rfl, rfl⟩

/-- Reduction of the left-operand right-shift dispatch (the right-operand
one is the `__shift__` lookup, which raises `AttributeError`). -/
theorem counterRshift_eq (v n : Int) :
    counterRshift v n
      = (if n < 0 then Except.error PyExc.valueError
         else Except.ok (PyNum.int (Int.fdiv v (2 ^ n.toNat)))) :=
  rfl

/-- C8 (code bug exhibited): for every stored value `v` and integer `n`,
every supported binary operator, evaluated with the Counter in either
operand position, dispatches onto the corresponding real method of the
`int` type and therefore reproduces Python's behavior exactly — the value
`v op n` (left) or `n op v` (right) where Python stays in `int`, the exact
float where `/` or a negative exponent leaves `int`, and Python's own
`ZeroDivisionError`/`ValueError` on a zero divisor or negative shift count
— EXCEPT the right-operand right shift: `Int.__rrshift__` looks up a method
named `__shift__` (a typo for `__rshift__`), which the `int` type does not
have, so `n >> counter` raises `AttributeError` for every input.  (The dead
Python 2 relics `__div__`/`__rdiv__` also raise `AttributeError`, but no
Python 3 operator ever calls them; the claim's division operator is
`__truediv__`/`__floordiv__`, both correct.) -/
theorem counter_operator_spec (v n : Int) :
    counterAdd v n = Except.ok (PyNum.int (v + n)) ∧
    counterRAdd v n = Except.ok (PyNum.int (n + v)) ∧
    counterSub v n = Except.ok (PyNum.int (v - n)) ∧
    counterRSub v n = Except.ok (PyNum.int (n - v)) ∧
    counterMul v n = Except.ok (PyNum.int (v * n)) ∧
    counterRMul v n = Except.ok (PyNum.int (n * v)) ∧
    (n ≠ 0 → counterTruediv v n
      = Except.ok (PyNum.float ((v : ℚ) / (n : ℚ)))) ∧
    (v ≠ 0 → counterRTruediv v n
      = Except.ok (PyNum.float ((n : ℚ) / (v : ℚ)))) ∧
    (n = 0 → counterTruediv v n = Except.error PyExc.zeroDivisionError) ∧
    (v = 0 → counterRTruediv v n = Except.error PyExc.zeroDivisionError) ∧
    (n ≠ 0 → counterFloordiv v n = Except.ok (PyNum.int (Int.fdiv v n))) ∧
    (v ≠ 0 → counterRFloordiv v n = Except.ok (PyNum.int (Int.fdiv n v))) ∧
    (n = 0 → counterFloordiv v n = Except.error PyExc.zeroDivisionError) ∧
    (v = 0 → counterRFloordiv v n = Except.error PyExc.zeroDivisionError) ∧
    (n ≠ 0 → counterMod v n = Except.ok (PyNum.int (Int.fmod v n))) ∧
    (v ≠ 0 → counterRMod v n = Except.ok (PyNum.int (Int.fmod n v))) ∧
    (n = 0 → counterMod v n = Except.error PyExc.zeroDivisionError) ∧
    (v = 0 → counterRMod v n = Except.error PyExc.zeroDivisionError) ∧
    (n ≠ 0 → counterDivmod v n
      = Except.ok (PyNum.tuple (Int.fdiv v n) (Int.fmod v n))) ∧
    (v ≠ 0 → counterRDivmod v n
      = Except.ok (PyNum.tuple (Int.fdiv n v) (Int.fmod n v))) ∧
    (n = 0 → counterDivmod v n = Except.error PyExc.zeroDivisionError) ∧
    (0 ≤ n → counterPow v n = Except.ok (PyNum.int (v ^ n.toNat))) ∧
    (0 ≤ v → counterRPow v n = Except.ok (PyNum.int (n ^ v.toNat))) ∧
    (n < 0 → v ≠ 0 → counterPow v n
      = Except.ok (PyNum.float ((v : ℚ) ^ n))) ∧
    (n < 0 → v = 0 → counterPow v n
      = Except.error PyExc.zeroDivisionError) ∧
    (0 ≤ n → counterLshift v n = Except.ok (PyNum.int (v * 2 ^ n.toNat))) ∧
    (0 ≤ v → counterRLshift v n = Except.ok (PyNum.int (n * 2 ^ v.toNat))) ∧
    (n < 0 → counterLshift v n = Except.error PyExc.valueError) ∧
    (0 ≤ n → counterRshift v n
      = Except.ok (PyNum.int (Int.fdiv v (2 ^ n.toNat)))) ∧
    (n < 0 → counterRshift v n = Except.error PyExc.valueError) ∧
    counterAnd v n = Except.ok (PyNum.int (Int.land v n)) ∧
    counterRAnd v n = Except.ok (PyNum.int (Int.land n v)) ∧
    counterOr v n = Except.ok (PyNum.int (Int.lor v n)) ∧
    counterROr v n = Except.ok (PyNum.int (Int.lor n v)) ∧
    counterXor v n = Except.ok (PyNum.int (Int.xor v n)) ∧
    counterRXor v n = Except.ok (PyNum.int (Int.xor n v)) ∧
    counterDiv v n = Except.error PyExc.attributeError ∧
    counterRDiv v n = Except.error PyExc.attributeError ∧
    counterRRshift v n = Except.error PyExc.attributeError := by
  refine ⟨rfl, rfl, rfl, rfl, rfl, rfl, ?_, ?_, ?_, ?_, ?_, ?_, ?_, ?_,
    ?_, ?_, ?_, ?_, ?_, ?_, ?_, ?_, ?_, ?_, ?_, ?_, ?_, ?_, ?_, ?_,
    rfl, rfl, rfl, rfl, rfl, rfl, rfl, rfl, rfl⟩
  · intro h
    rw [(counterTruediv_eq v n).1, if_neg h]
  · intro h
    rw [(counterTruediv_eq v n).2, if_neg h]
  · intro h
    rw [(counterTruediv_eq v n).1, if_pos h]
  · intro h
    rw [(counterTruediv_eq v n).2, if_pos h]
  · intro h
    rw [(counterFloordiv_eq v n).1, if_neg h]
  · intro h
    rw [(counterFloordiv_eq v n).2, if_neg h]
  · intro h
    rw [(counterFloordiv_eq v n).1, if_pos h]
  · intro h
    rw [(counterFloordiv_eq v n).2, if_pos h]
  · intro h
    rw [(counterMod_eq v n).1, if_neg h]
  · intro h
    rw [(counterMod_eq v n).2, if_neg h]
  · intro h
    rw [(counterMod_eq v n).1, if_pos h]
  · intro h
    rw [(counterMod_eq v n).2, if_pos h]
  · intro h
    rw [(counterDivmod_eq v n).1, if_neg h]
  · intro h
    rw [(counterDivmod_eq v n).2, if_neg h]
  · intro h
    rw [(counterDivmod_eq v n).1, if_pos h]
  · intro h
    rw [(counterPow_eq v n).1, if_pos h]
  · intro h
    rw [(counterPow_eq v n).2, if_pos h]
  · intro h1 h2
    rw [(counterPow_eq v n).1, if_neg (by omega), if_neg h2]
  · intro h1 h2
    rw [(counterPow_eq v n).1, if_neg (by omega), if_pos h2]
  · intro h
    rw [(counterLshift_eq v n).1, if_neg (by omega)]
  · intro h
    rw [(counterLshift_eq v n).2, if_neg (by omega)]
  · intro h
    rw [(counterLshift_eq v n).1, if_pos h]
  · intro h
    rw [counterRshift_eq, if_neg (by omega)]
  · intro h
    rw [counterRshift_eq, if_pos h]

/-- C8 witness: with stored value 5 (and 0 for the zero-base power case),
the Counter reproduces `int` behavior in both operand positions — including
the float results of true division and negative exponents and the
`ZeroDivisionError`/`ValueError` cases — while `3 >> counter` and the dead
`__div__`/`__rdiv__` dispatches raise `AttributeError`. -/
theorem counter_operator_spec_witness :
    counterAdd 5 3 = Except.ok (PyNum.int 8) ∧
    counterRAdd 5 3 = Except.ok (PyNum.int 8) ∧
    counterSub 5 3 = Except.ok (PyNum.int 2) ∧
    counterRSub 5 3 = Except.ok (PyNum.int (-2)) ∧
    counterTruediv 5 3 = Except.ok (PyNum.float (5 / 3)) ∧
    counterRTruediv 5 3 = Except.ok (PyNum.float (3 / 5)) ∧
    counterTruediv 5 0 = Except.error PyExc.zeroDivisionError ∧
    counterFloordiv 5 3 = Except.ok (PyNum.int 1) ∧
    counterRFloordiv 5 3 = Except.ok (PyNum.int 0) ∧
    counterMod 5 3 = Except.ok (PyNum.int 2) ∧
    counterMod 5 0 = Except.error PyExc.zeroDivisionError ∧
    counterDivmod 5 3 = Except.ok (PyNum.tuple 1 2) ∧
    counterPow 5 2 = Except.ok (PyNum.int 25) ∧
    counterPow 5 (-2) = Except.ok (PyNum.float (1 / 25)) ∧
    counterPow 0 (-1) = Except.error PyExc.zeroDivisionError ∧
    counterLshift 5 2 = Except.ok (PyNum.int 20) ∧
    counterLshift 5 (-1) = Except.error PyExc.valueError ∧
    counterRshift 5 1 = Except.ok (PyNum.int 2) ∧
    counterRshift 5 (-1) = Except.error PyExc.valueError ∧
    counterAnd 6 3 = Except.ok (PyNum.int 2) ∧
    counterDiv 5 3 = Except.error PyExc.attributeError ∧
    counterRDiv 5 3 = Except.error PyExc.attributeError ∧
    counterRRshift 5 3 = Except.error PyExc.attributeError := by
  have h53 := counter_operator_spec 5 3
  have h50 := counter_operator_spec 5 0
  have h52 := counter_operator_spec 5 2
  have h5m2 := counter_operator_spec 5 (-2)
  have h0m1 := counter_operator_spec 0 (-1)
  have h51 := counter_operator_spec 5 1
  have h5m1 := counter_operator_spec 5 (-1)
  have h63 := counter_operator_spec 6 3
  refine ⟨?_, ?_, ?_, ?_, ?_, ?_, ?_, ?_, ?_, ?_, ?_, ?_, ?_, ?_, ?_, ?_,
    ?_, ?_, ?_, ?_, ?_, ?_, ?_⟩
  · simpa using h53.1
  · simpa using h53.2.1
  · simpa using h53.2.2.1
  · simpa using h53.2.2.2.1
  · have h := h53.2.2.2.2.2.2.1 (by decide)
    rw [h]
    norm_num
  · have h := h53.2.2.2.2.2.2.2.1 (by decide)
    rw [h]
    norm_num
  · exact h50.2.2.2.2.2.2.2.2.1 rfl
  · have h := h53.2.2.2.2.2.2.2.2.2.2.1 (by decide)
    rw [h]
    rfl
  · have h := h53.2.2.2.2.2.2.2.2.2.2.2.1 (by decide)
    rw [h]
    rfl
  · have h := h53.2.2.2.2.2.2.2.2.2.2.2.2.2.2.1 (by decide)
    rw [h]
    rfl
  · exact h50.2.2.2.2.2.2.2.2.2.2.2.2.2.2.2.2.1 rfl
  · have h := h53.2.2.2.2.2.2.2.2.2.2.2.2.2.2.2.2.2.2.1 (by decide)
    rw [h]
    rfl
  · have h := h52.2.2.2.2.2.2.2.2.2.2.2.2.2.2.2.2.2.2.2.2.2.1 (by decide)
    rw [h]
    rfl
  · have h :=
      h5m2.2.2.2.2.2.2.2.2.2.2.2.2.2.2.2.2.2.2.2.2.2.2.2.1
        (by decide) (by decide)
    rw [h]
    norm_num
  · exact
      h0m1.2.2.2.2.2.2.2.2.2.2.2.2.2.2.2.2.2.2.2.2.2.2.2.2.1
        (by decide) rfl
  · have h :=
      h52.2.2.2.2.2.2.2.2.2.2.2.2.2.2.2.2.2.2.2.2.2.2.2.2.2.1 (by decide)
    rw [h]
    rfl
  · exact
      h5m1.2.2.2.2.2.2.2.2.2.2.2.2.2.2.2.2.2.2.2.2.2.2.2.2.2.2.2.1
        (by decide)
  · have h :=
      h51.2.2.2.2.2.2.2.2.2.2.2.2.2.2.2.2.2.2.2.2.2.2.2.2.2.2.2.2.1
        (by decide)
    rw [h]
    rfl
  · exact
      h5m1.2.2.2.2.2.2.2.2.2.2.2.2.2.2.2.2.2.2.2.2.2.2.2.2.2.2.2.2.2.1
        (by decide)
  · simpa using
      h63.2.2.2.2.2.2.2.2.2.2.2.2.2.2.2.2.2.2.2.2.2.2.2.2.2.2.2.2.2.2.1
  · exact
      h53.2.2.2.2.2.2.2.2.2.2.2.2.2.2.2.2.2.2.2.2.2.2.2.2.2.2.2.2.2.2.2.2.2.2.2.2.1
  · exact
      h53.2.2.2.2.2.2.2.2.2.2.2.2.2.2.2.2.2.2.2.2.2.2.2.2.2.2.2.2.2.2.2.2.2.2.2.2.2.1
  · exact
      h53.2.2.2.2.2.2.2.2.2.2.2.2.2.2.2.2.2.2.2.2.2.2.2.2.2.2.2.2.2.2.2.2.2.2.2.2.2.2

/-! The ZSet reference sorted set.  Its backing `dict` of member-to-score
entries is modelled as an association list `List (Nat × S)` — members are
plain comparable values (here `Nat`), scores live in an arbitrary linear
order `S`, which covers the real scores of the specification.  Python's
`sorted(..., key=lambda x: (x[1], x[0]))` orders pairs by score and then by
member; since that order is total and antisymmetric on pairs, the sorted
output is unique and is embedded by `List.insertionSort` over the
relation `zle`. -/

/-- The ordering used by `ZSet.items`: by `(score, member)`,
lexicographically. -/
def zle {S : Type} [LinearOrder S] (a b : Nat × S) : Prop :=
  a.2 < b.2 ∨ (a.2 = b.2 ∧ a.1 ≤ b.1)

instance {S : Type} [LinearOrder S] : DecidableRel (@zle S _) :=
  fun a b => inferInstanceAs (Decidable (_ ∨ _))

instance {S : Type} [LinearOrder S] : IsTotal (Nat × S) zle where
  total a b := by
    rcases lt_trichotomy a.2 b.2 with h | h | h
    · exact Or.inl (Or.inl h)
    · rcases le_total a.1 b.1 with h2 | h2
      · exact Or.inl (Or.inr ⟨h, h2⟩)
      · exact Or.inr (Or.inr ⟨h.symm, h2⟩)
    · exact Or.inr (Or.inl h)

instance {S : Type} [LinearOrder S] : IsTrans (Nat × S) zle where
  trans a b c hab hbc := by
    rcases hab with h1 | ⟨e1, m1⟩ <;> rcases hbc with h2 | ⟨e2, m2⟩
    · exact Or.inl (h1.trans h2)
    · exact Or.inl (e2 ▸ h1)
    · exact Or.inl (e1 ▸ h2)
    · exact Or.inr ⟨e1.trans e2, m1.trans m2⟩

/-- Embedding of `ZSet.items`: the `(member, score)` pairs of the backing
dict sorted by `(score, member)`. -/
def zitems {S : Type} [LinearOrder S] (d : List (Nat × S)) :
    List (Nat × S) :=
  List.insertionSort zle d

/-- Embedding of `ZSet._as_set`: the members in `(score, member)` order. -/
def zasSet {S : Type} [LinearOrder S] (d : List (Nat × S)) : List Nat :=
  (zitems d).map Prod.fst

/-- Embedding of a Python dict lookup `self._dict[member]` on the backing
association list, `None`-free: `none` models a raised `KeyError`. -/
def zscoreOf {S : Type} (d : List (Nat × S)) (m : Nat) : Option S :=
  (d.find? (fun p => p.1 == m)).map Prod.snd

/-- Embedding of a Python dict store `self._dict[member] = v` for a member
already present: every entry for the member is rewritten to the new score. -/
def zstore {S : Type} (d : List (Nat × S)) (m : Nat) (v : S) :
    List (Nat × S) :=
  d.map (fun p => if p.1 == m then (m, v) else p)

/-- Embedding of `ZSet.increment`: `self._dict[member] += amount` raises
`KeyError` when the member is absent; otherwise it stores the increased
score and returns it (`return self._dict[member]`) with the new state. -/
def zincrement {S : Type} [Add S] (d : List (Nat × S)) (m : Nat)
    (amount : S) : Except Unit (S × List (Nat × S)) :=
  match zscoreOf d m with
  | none => Except.error ()
  | some s => Except.ok (s + amount, zstore d m (s + amount))

/-- Unfolding of the dict lookup over a cons cell. -/
theorem zscoreOf_cons {S : Type} (a : Nat) (b : S) (rest : List (Nat × S))
    (m : Nat) :
    zscoreOf ((a, b) :: rest) m
      = if a = m then some b else zscoreOf rest m := by
  by_cases h : a = m
  · simp [zscoreOf, List.find?_cons, h]
  · simp [zscoreOf, List.find?_cons, h]

/-- Unfolding of the dict store over a cons cell. -/
theorem zstore_cons {S : Type} (a : Nat) (b : S) (rest : List (Nat × S))
    (m : Nat) (v : S) :
    zstore ((a, b) :: rest) m v
      = (if a = m then (m, v) else (a, b)) :: zstore rest m v := by
  by_cases h : a = m
  · simp [zstore, h]
  · simp [zstore, h]

/-- Looking up the member just stored yields the stored score, provided the
member was present before the store. -/
theorem zscoreOf_zstore_self {S : Type} (d : List (Nat × S)) (m : Nat)
    (v : S) (s : S) (h : zscoreOf d m = some s) :
    zscoreOf (zstore d m v) m = some v := by
  induction d with
  | nil => simp [zscoreOf] at h
  | cons p rest ih =>
    obtain ⟨a, b⟩ := p
    rw [zstore_cons]
    by_cases hp : a = m
    · subst hp
      rw [if_pos rfl, zscoreOf_cons, if_pos rfl]
    · rw [if_neg hp, zscoreOf_cons, if_neg hp]
      rw [zscoreOf_cons, if_neg hp] at h
      exact ih h

/-- Storing at one member leaves every other member's lookup unchanged. -/
theorem zscoreOf_zstore_other {S : Type} (d : List (Nat × S)) (m m2 : Nat)
    (v : S) (hne : m2 ≠ m) :
    zscoreOf (zstore d m v) m2 = zscoreOf d m2 := by
  induction d with
  | nil => simp [zscoreOf, zstore]
  | cons p rest ih =>
    obtain ⟨a, b⟩ := p
    rw [zstore_cons]
    by_cases hp : a = m
    · have hm2 : ¬ (m = m2) := fun h => hne h.symm
      have ha2 : ¬ (a = m2) := by rw [hp]; exact hm2
      rw [if_pos hp, zscoreOf_cons, if_neg hm2, zscoreOf_cons, if_neg ha2]
      exact ih
    · rw [if_neg hp, zscoreOf_cons, zscoreOf_cons]
      by_cases hq : a = m2
      · rw [if_pos hq, if_pos hq]
      · rw [if_neg hq, if_neg hq]
        exact ih

/-- C10: on the reference sorted set, `increment(m, amount)` raises
`KeyError` when `m` is not present — it does not insert `m` (the error
propagates before any store happens, so the state is unchanged) — and when
`m` is present with score `s` it stores and returns the updated score
`s + amount`, touching no other member. -/
theorem zset_increment_spec {S : Type} [LinearOrder S] [Add S]
    (d : List (Nat × S)) (m : Nat) (amount : S) :
    ((∀ s : S, (m, s) ∉ d) → zincrement d m amount = Except.error ()) ∧
    (∀ s : S, zscoreOf d m = some s →
      zincrement d m amount = Except.ok (s + amount, zstore d m (s + amount)) ∧
      zscoreOf (zstore d m (s + amount)) m = some (s + amount) ∧
      ∀ m2, m2 ≠ m →
        zscoreOf (zstore d m (s + amount)) m2 = zscoreOf d m2) := by
  constructor
  · intro habs
    have hnone : zscoreOf d m = none := by
      simp only [zscoreOf, Option.map_eq_none']
      apply List.find?_eq_none.mpr
      rintro ⟨a, b⟩ hp
      intro hcontra
      have ha : a = m := by simpa using hcontra
      subst ha
      exact habs b hp
    simp [zincrement, hnone]
  · intro s h
    refine ⟨by simp [zincrement, h], zscoreOf_zstore_self d m _ s h, ?_⟩
    intro m2 hne
    exact zscoreOf_zstore_other d m m2 _ hne

/-- C10 witness: incrementing the present member `2` (score 7) by 5 returns
the updated score 12 and stores it; incrementing the absent member `3`
raises `KeyError`. -/
theorem zset_increment_spec_witness :
    zincrement [(1, (4 : Int)), (2, 7)] 2 5 = Except.ok (12, [(1, 4), (2, 12)]) ∧
    zincrement [(1, (4 : Int)), (2, 7)] 3 5 = Except.error () := by
  constructor
  · have h := ((zset_increment_spec [(1, (4 : Int)), (2, 7)] 2 5).2 7
      (by decide)).1
    simpa [zstore] using h
  · apply (zset_increment_spec [(1, (4 : Int)), (2, 7)] 3 5).1
    intro s hs
    simp at hs

/-- Embedding of Python's `list.index`: the zero-based position of the first
occurrence, with a raised `ValueError` on a missing element modelled as
`none`. -/
def pyIndex {α : Type} [DecidableEq α] (l : List α) (m : α) : Option Nat :=
  match l with
  | [] => none
  | x :: xs => if x = m then some 0 else (pyIndex xs m).map (· + 1)

/-- Embedding of `ZSet.rank`: `self._as_set().index(member)`, the zero-based
position of the member in ascending `(score, member)` order. -/
def zrank {S : Type} [LinearOrder S] (d : List (Nat × S)) (m : Nat) :
    Option Nat :=
  pyIndex (zasSet d) m

/-- Embedding of `ZSet.revrank`: `self.__len__() - self.rank(member) - 1`,
where `__len__` is the size of the backing dict; a `ValueError` raised by
`rank` propagates. -/
def zrevrank {S : Type} [LinearOrder S] (d : List (Nat × S)) (m : Nat) :
    Option Nat :=
  (zrank d m).map (fun r => d.length - r - 1)

/-- A present element has an index, and that index is within bounds. -/
theorem pyIndex_of_mem {α : Type} [DecidableEq α] (l : List α) (m : α)
    (h : m ∈ l) : ∃ r, pyIndex l m = some r ∧ r < l.length := by
  induction l with
  | nil => simp at h
  | cons x xs ih =>
    by_cases hx : x = m
    · exact ⟨0, by simp [pyIndex, hx], by simp⟩
    · have hmem : m ∈ xs := by
        rcases List.mem_cons.mp h with h1 | h1
        · exact absurd h1.symm hx
        · exact h1
      rcases ih hmem with ⟨r, hr, hlt⟩
      exact ⟨r + 1, by simp [pyIndex, hx, hr], by simpa using hlt⟩

/-- C2: in a non-empty reference sorted set, every present member `m`
satisfies `rank(m) + revrank(m) = count - 1`, where `count` is the number of
members, `rank` is the zero-based ascending `(score, member)` position and
`revrank` the descending one. -/
theorem zset_rank_revrank_spec {S : Type} [LinearOrder S]
    (d : List (Nat × S)) (m : Nat) (hmem : ∃ s : S, (m, s) ∈ d) :
    ∃ r rr, zrank d m = some r ∧ zrevrank d m = some rr ∧
      r + rr = d.length - 1 ∧ 1 ≤ d.length := by
  rcases hmem with ⟨s, hs⟩
  have hits : (m, s) ∈ zitems d :=
    (List.perm_insertionSort zle d).symm.subset hs
  have hset : m ∈ zasSet d := by
    exact List.mem_map.mpr ⟨(m, s), hits, rfl⟩
  rcases pyIndex_of_mem (zasSet d) m hset with ⟨r, hr, hlt⟩
  have hlen : (zasSet d).length = d.length := by
    rw [zasSet, List.length_map, zitems, List.length_insertionSort]
  rw [hlen] at hlt
  refine ⟨r, d.length - r - 1, hr, ?_, by omega, by omega⟩
  rw [zrevrank, zrank] at *
  rw [hr]
  rfl

/-- C2 witness: in the two-member set `{5 ↦ 10, 6 ↦ 20}`, member 6 has
rank 1 and revrank 0, and `1 + 0 = 2 - 1`. -/
theorem zset_rank_revrank_spec_witness :
    ∃ r rr, zrank [(5, (10 : Int)), (6, 20)] 6 = some r ∧
      zrevrank [(5, (10 : Int)), (6, 20)] 6 = some rr ∧
      r + rr = 2 - 1 ∧ 1 ≤ 2 := by
  have h := zset_rank_revrank_spec [(5, (10 : Int)), (6, 20)] 6
    ⟨20, by simp⟩
  simpa using h

/-- Embedding of `bisect.bisect_left(a, x, lo, hi)` from the Python standard
library: the classic binary-search loop
`while lo < hi: mid = (lo+hi)//2; if a[mid] < x: lo = mid+1 else: hi = mid`.
Indexing is total via `getD`; every call made by `range_by_score` stays in
bounds, where the default is never consulted. -/
def bisectLeft {S : Type} [LinearOrder S] (a : List S) (x : S)
    (lo hi : Nat) : Nat :=
  if lo < hi then
    let mid := (lo + hi) / 2
    if a.getD mid x < x then bisectLeft a x (mid + 1) hi
    else bisectLeft a x lo mid
  else lo
termination_by hi - lo
decreasing_by
  · omega
  · omega

/-- Embedding of `bisect.bisect_right(a, x, lo, hi)`:
`while lo < hi: mid = (lo+hi)//2; if x < a[mid]: hi = mid else: lo = mid+1`. -/
def bisectRight {S : Type} [LinearOrder S] (a : List S) (x : S)
    (lo hi : Nat) : Nat :=
  if lo < hi then
    let mid := (lo + hi) / 2
    if x < a.getD mid x then bisectRight a x lo mid
    else bisectRight a x (mid + 1) hi
  else lo
termination_by hi - lo
decreasing_by
  · omega
  · omega

/-- Unfolding of the `bisect_left` loop when the probe is below the target. -/
theorem bisectLeft_eq_of_lt {S : Type} [LinearOrder S] (a : List S) (x : S)
    (lo hi : Nat) (hlt : lo < hi) (hcond : a.getD ((lo + hi) / 2) x < x) :
    bisectLeft a x lo hi = bisectLeft a x ((lo + hi) / 2 + 1) hi := by
  rw [bisectLeft]
  simp only [if_pos hlt, if_pos hcond]

/-- Unfolding of the `bisect_left` loop when the probe is at or above the
target. -/
theorem bisectLeft_eq_of_ge {S : Type} [LinearOrder S] (a : List S) (x : S)
    (lo hi : Nat) (hlt : lo < hi) (hcond : ¬ a.getD ((lo + hi) / 2) x < x) :
    bisectLeft a x lo hi = bisectLeft a x lo ((lo + hi) / 2) := by
  rw [bisectLeft]
  simp only [if_pos hlt, if_neg hcond]

/-- Unfolding of the `bisect_left` loop at an empty window. -/
theorem bisectLeft_eq_base {S : Type} [LinearOrder S] (a : List S) (x : S)
    (lo hi : Nat) (hnlt : ¬ lo < hi) : bisectLeft a x lo hi = lo := by
  rw [bisectLeft]
  simp only [if_neg hnlt]

/-- Unfolding of the `bisect_right` loop when the probe is above the target. -/
theorem bisectRight_eq_of_lt {S : Type} [LinearOrder S] (a : List S) (x : S)
    (lo hi : Nat) (hlt : lo < hi) (hcond : x < a.getD ((lo + hi) / 2) x) :
    bisectRight a x lo hi = bisectRight a x lo ((lo + hi) / 2) := by
  rw [bisectRight]
  simp only [if_pos hlt, if_pos hcond]

/-- Unfolding of the `bisect_right` loop when the probe is at or below the
target. -/
theorem bisectRight_eq_of_ge {S : Type} [LinearOrder S] (a : List S) (x : S)
    (lo hi : Nat) (hlt : lo < hi) (hcond : ¬ x < a.getD ((lo + hi) / 2) x) :
    bisectRight a x lo hi = bisectRight a x ((lo + hi) / 2 + 1) hi := by
  rw [bisectRight]
  simp only [if_pos hlt, if_neg hcond]

/-- Unfolding of the `bisect_right` loop at an empty window. -/
theorem bisectRight_eq_base {S : Type} [LinearOrder S] (a : List S) (x : S)
    (lo hi : Nat) (hnlt : ¬ lo < hi) : bisectRight a x lo hi = lo := by
  rw [bisectRight]
  simp only [if_neg hnlt]

/-- In a list sorted by `≤`, total indexing with any default is monotone on
in-bounds indices. -/
theorem sorted_getD_mono {S : Type} [LinearOrder S] {a : List S}
    (h : List.Sorted (fun q r : S => q ≤ r) a) (x : S) {i j : Nat}
    (hij : i ≤ j) (hj : j < a.length) : a.getD i x ≤ a.getD j x := by
  rcases Nat.eq_or_lt_of_le hij with rfl | hlt
  · exact le_rfl
  · have hi : i < a.length := lt_trans hlt hj
    have hrel := List.pairwise_iff_get.mp h ⟨i, hi⟩ ⟨j, hj⟩
      (Fin.mk_lt_mk.mpr hlt)
    rw [List.getD_eq_getElem a x hi, List.getD_eq_getElem a x hj]
    simpa [List.get_eq_getElem] using hrel

/-- Correctness of the `bisect_left` loop on a sorted list: starting from a
window whose outside already satisfies the partition invariants, the result
`r` lies in the window, every index below `r` holds a value strictly below
`x`, and every in-bounds index from `r` on holds a value at least `x`. -/
theorem bisectLeft_spec {S : Type} [LinearOrder S] (a : List S) (x : S)
    (hsort : List.Sorted (fun q r : S => q ≤ r) a) :
    ∀ lo hi, lo ≤ hi → hi ≤ a.length →
      (∀ i, i < lo → a.getD i x < x) →
      (∀ i, hi ≤ i → i < a.length → x ≤ a.getD i x) →
      lo ≤ bisectLeft a x lo hi ∧ bisectLeft a x lo hi ≤ hi ∧
      (∀ i, i < bisectLeft a x lo hi → a.getD i x < x) ∧
      (∀ i, bisectLeft a x lo hi ≤ i → i < a.length → x ≤ a.getD i x) := by
  intro lo hi
  induction lo, hi using bisectLeft.induct a x with
  | case1 lo hi hlt mid hcond ih =>
    intro hlohi hhilen hinvlo hinvhi
    have hmid : mid = (lo + hi) / 2 := rfl
    have hmlo : lo ≤ mid := by omega
    have hmhi : mid < hi := by omega
    rw [bisectLeft_eq_of_lt a x lo hi hlt (by rw [← hmid]; exact hcond),
      ← hmid]
    have hinvlo2 : ∀ i, i < mid + 1 → a.getD i x < x := by
      intro i hi2
      have him : i ≤ mid := by omega
      have hmlen : mid < a.length := by omega
      exact lt_of_le_of_lt (sorted_getD_mono hsort x him hmlen) hcond
    obtain ⟨h1, h2, h3, h4⟩ := ih (by omega) hhilen hinvlo2 hinvhi
    exact ⟨by omega, h2, h3, h4⟩
  | case2 lo hi hlt mid hcond ih =>
    intro hlohi hhilen hinvlo hinvhi
    have hmid : mid = (lo + hi) / 2 := rfl
    have hmlo : lo ≤ mid := by omega
    have hmhi : mid < hi := by omega
    rw [bisectLeft_eq_of_ge a x lo hi hlt (by rw [← hmid]; exact hcond),
      ← hmid]
    have hinvhi2 : ∀ i, mid ≤ i → i < a.length → x ≤ a.getD i x := by
      intro i him hilen
      exact le_trans (not_lt.mp hcond) (sorted_getD_mono hsort x him hilen)
    obtain ⟨h1, h2, h3, h4⟩ := ih hmlo (by omega) hinvlo hinvhi2
    exact ⟨h1, by omega, h3, h4⟩
  | case3 lo hi hnlt =>
    intro hlohi hhilen hinvlo hinvhi
    rw [bisectLeft_eq_base a x lo hi hnlt]
    refine ⟨le_rfl, hlohi, hinvlo, ?_⟩
    intro i h1 h2
    exact hinvhi i (by omega) h2

/-- Correctness of the `bisect_right` loop on a sorted list, relative to the
left edge `lo0` of the original search window: the result `r` lies in the
window, every index in `[lo0, r)` holds a value at most `x`, and every
in-bounds index from `r` on holds a value strictly above `x`. -/
theorem bisectRight_spec {S : Type} [LinearOrder S] (a : List S) (x : S)
    (lo0 : Nat) (hsort : List.Sorted (fun q r : S => q ≤ r) a) :
    ∀ lo hi, lo0 ≤ lo → lo ≤ hi → hi ≤ a.length →
      (∀ i, lo0 ≤ i → i < lo → a.getD i x ≤ x) →
      (∀ i, hi ≤ i → i < a.length → x < a.getD i x) →
      lo ≤ bisectRight a x lo hi ∧ bisectRight a x lo hi ≤ hi ∧
      (∀ i, lo0 ≤ i → i < bisectRight a x lo hi → a.getD i x ≤ x) ∧
      (∀ i, bisectRight a x lo hi ≤ i → i < a.length → x < a.getD i x) := by
  intro lo hi
  induction lo, hi using bisectRight.induct a x with
  | case1 lo hi hlt mid hcond ih =>
    intro hlo0 hlohi hhilen hinvlo hinvhi
    have hmid : mid = (lo + hi) / 2 := rfl
    have hmlo : lo ≤ mid := by omega
    have hmhi : mid < hi := by omega
    rw [bisectRight_eq_of_lt a x lo hi hlt (by rw [← hmid]; exact hcond),
      ← hmid]
    have hinvhi2 : ∀ i, mid ≤ i → i < a.length → x < a.getD i x := by
      intro i him hilen
      exact lt_of_lt_of_le hcond (sorted_getD_mono hsort x him hilen)
    obtain ⟨h1, h2, h3, h4⟩ := ih hlo0 hmlo (by omega) hinvlo hinvhi2
    exact ⟨h1, by omega, h3, h4⟩
  | case2 lo hi hlt mid hcond ih =>
    intro hlo0 hlohi hhilen hinvlo hinvhi
    have hmid : mid = (lo + hi) / 2 := rfl
    have hmlo : lo ≤ mid := by omega
    have hmhi : mid < hi := by omega
    rw [bisectRight_eq_of_ge a x lo hi hlt (by rw [← hmid]; exact hcond),
      ← hmid]
    have hinvlo2 : ∀ i, lo0 ≤ i → i < mid + 1 → a.getD i x ≤ x := by
      intro i hi0 hi2
      rcases Nat.lt_or_ge i lo with hcase | hcase
      · exact hinvlo i hi0 hcase
      · have him : i ≤ mid := by omega
        have hmlen : mid < a.length := by omega
        have hstep : a.getD i x ≤ a.getD mid x := by
          rcases Nat.eq_or_lt_of_le him with rfl | hlt2
          · exact le_rfl
          · exact sorted_getD_mono hsort x him hmlen
        exact le_trans hstep (not_lt.mp hcond)
    obtain ⟨h1, h2, h3, h4⟩ := ih (by omega) (by omega) hhilen hinvlo2 hinvhi
    exact ⟨by omega, h2, h3, h4⟩
  | case3 lo hi hnlt =>
    intro hlo0 hlohi hhilen hinvlo hinvhi
    rw [bisectRight_eq_base a x lo hi hnlt]
    refine ⟨le_rfl, hlohi, hinvlo, ?_⟩
    intro i h1 h2
    exact hinvhi i (by omega) h2

/-- A filter whose predicate holds exactly on the contiguous index window
`[s, e)` is the slice `l[s:e]`, that is, `(l.take e).drop s`. -/
theorem filter_eq_drop_take {α : Type} (p : α → Bool) :
    ∀ (l : List α) (s e : Nat), s ≤ e →
      (∀ i (h : i < l.length),
        (p (l.get ⟨i, h⟩) = true ↔ (s ≤ i ∧ i < e))) →
      List.filter p l = (l.take e).drop s := by
  intro l
  induction l with
  | nil =>
    intro s e hse hcond
    simp
  | cons a l ih =>
    intro s e hse hcond
    cases e with
    | zero =>
      have hs0 : s = 0 := by omega
      subst hs0
      have hall : ∀ y ∈ a :: l, ¬ p y = true := by
        intro y hy
        obtain ⟨⟨i, hilt⟩, rfl⟩ := List.mem_iff_get.mp hy
        intro hp
        have := (hcond i hilt).mp hp
        omega
      rw [List.filter_eq_nil_iff.mpr hall]
      simp
    | succ e =>
      have hshift : ∀ i (h : i < l.length),
          (p (l.get ⟨i, h⟩) = true ↔ (s ≤ i + 1 ∧ i + 1 < e + 1)) := by
        intro i h
        have h2 : i + 1 < (a :: l).length := by
          simp only [List.length_cons]
          omega
        have := hcond (i + 1) h2
        simpa using this
      have h0 : 0 < (a :: l).length := by simp
      have hhead : p a = true ↔ (s ≤ 0 ∧ 0 < e + 1) := hcond 0 h0
      cases s with
      | zero =>
        have hpa : p a = true :=
          hhead.mpr ⟨Nat.zero_le _, Nat.succ_pos _⟩
        have hstep : List.filter p l = (l.take e).drop 0 := by
          apply ih 0 e (Nat.zero_le _)
          intro i h
          have := hshift i h
          constructor
          · intro hp
            have h3 := this.mp hp
            exact ⟨Nat.zero_le _, by omega⟩
          · rintro ⟨h4, h5⟩
            exact this.mpr ⟨by omega, by omega⟩
        rw [List.filter_cons_of_pos hpa, hstep]
        simp [List.take_succ_cons]
      | succ s =>
        have hpa : ¬ p a = true := by
          intro hp
          have := hhead.mp hp
          omega
        have hstep : List.filter p l = (l.take e).drop s := by
          apply ih s e (by omega)
          intro i h
          have := hshift i h
          constructor
          · intro hp
            have h3 := this.mp hp
            exact ⟨by omega, by omega⟩
          · rintro ⟨h4, h5⟩
            exact this.mpr ⟨by omega, by omega⟩
        rw [List.filter_cons_of_neg hpa, hstep]
        rw [List.take_succ_cons, List.drop_succ_cons]

/-- Embedding of `ZSet.range_by_score`: sort the `(member, score)` pairs by
`(score, member)`, extract the score sequence, binary-search the leftmost
insertion point of `min` and (starting there) the rightmost insertion point
of `max`, and slice the member sequence between the two. -/
def range_by_score {S : Type} [LinearOrder S] (d : List (Nat × S))
    (mn mx : S) : List Nat :=
  let data := zitems d
  let keys := data.map Prod.snd
  let start := bisectLeft keys mn 0 keys.length
  let stop := bisectRight keys mx start keys.length
  ((zasSet d).take stop).drop start

/-- C1: on the reference sorted set, `range_by_score(min, max)` returns
exactly the members whose score `s` satisfies `min ≤ s ≤ max`, listed in
ascending `(score, member)` order — formally, the items of the set are
sorted by `(score, member)`, the result is precisely the member projection
of the in-range items in that order, and a member is returned iff it has an
in-range score (so the result is empty when no score lies in the range). -/
theorem zset_range_by_score_spec {S : Type} [LinearOrder S]
    (d : List (Nat × S)) (mn mx : S) :
    List.Sorted zle (zitems d) ∧
    range_by_score d mn mx
      = ((zitems d).filter
          (fun q => decide (mn ≤ q.2) && decide (q.2 ≤ mx))).map Prod.fst ∧
    (∀ m : Nat, m ∈ range_by_score d mn mx ↔
      ∃ s : S, (m, s) ∈ d ∧ mn ≤ s ∧ s ≤ mx) := by
  have hsorted : List.Sorted zle (zitems d) := List.sorted_insertionSort zle d
  have himp : ∀ {a b : Nat × S}, zle a b → a.2 ≤ b.2 := by
    intro a b hab
    rcases hab with h | ⟨h, _⟩
    · exact le_of_lt h
    · exact le_of_eq h
  have hkeysorted :
      List.Sorted (fun q r : S => q ≤ r) ((zitems d).map Prod.snd) :=
    List.pairwise_map.mpr (hsorted.imp himp)
  have hlen : ((zitems d).map Prod.snd).length = (zitems d).length :=
    List.length_map _ _
  obtain ⟨hL1, hL2, hL3, hL4⟩ :=
    bisectLeft_spec ((zitems d).map Prod.snd) mn hkeysorted
      0 ((zitems d).map Prod.snd).length
      (Nat.zero_le _) le_rfl
      (fun i h => absurd h (Nat.not_lt_zero i))
      (fun i h1 h2 => absurd h2 (Nat.not_lt.mpr h1))
  obtain ⟨hR1, hR2, hR3, hR4⟩ :=
    bisectRight_spec ((zitems d).map Prod.snd) mx
      (bisectLeft ((zitems d).map Prod.snd) mn
        0 ((zitems d).map Prod.snd).length)
      hkeysorted
      (bisectLeft ((zitems d).map Prod.snd) mn
        0 ((zitems d).map Prod.snd).length)
      ((zitems d).map Prod.snd).length
      le_rfl hL2 le_rfl
      (fun i h1 h2 => absurd h2 (Nat.not_lt.mpr h1))
      (fun i h1 h2 => absurd h2 (Nat.not_lt.mpr h1))
  have hgetD : ∀ (c : S) i (h : i < (zitems d).length),
      ((zitems d).map Prod.snd).getD i c = ((zitems d).get ⟨i, h⟩).2 := by
    intro c i h
    have h2 : i < ((zitems d).map Prod.snd).length := by
      rw [hlen]; exact h
    rw [List.getD_eq_getElem ((zitems d).map Prod.snd) c h2]
    simp [List.getElem_map, List.get_eq_getElem]
  have hcond : ∀ i (h : i < (zitems d).length),
      ((fun q => decide (mn ≤ q.2) && decide (q.2 ≤ mx))
          ((zitems d).get ⟨i, h⟩) = true
        ↔ (bisectLeft ((zitems d).map Prod.snd) mn
              0 ((zitems d).map Prod.snd).length ≤ i ∧
           i < bisectRight ((zitems d).map Prod.snd) mx
              (bisectLeft ((zitems d).map Prod.snd) mn
                0 ((zitems d).map Prod.snd).length)
              ((zitems d).map Prod.snd).length)) := by
    intro i h
    have hilen : i < ((zitems d).map Prod.snd).length := by
      rw [hlen]; exact h
    constructor
    · intro hp
      simp only [Bool.and_eq_true, decide_eq_true_eq] at hp
      obtain ⟨hv1, hv2⟩ := hp
      constructor
      · by_contra hc
        have hlt : i < bisectLeft ((zitems d).map Prod.snd) mn
            0 ((zitems d).map Prod.snd).length := by omega
        have := hL3 i hlt
        rw [hgetD mn i h] at this
        exact absurd hv1 (not_le.mpr this)
      · by_contra hc
        have hge : bisectRight ((zitems d).map Prod.snd) mx
            (bisectLeft ((zitems d).map Prod.snd) mn
              0 ((zitems d).map Prod.snd).length)
            ((zitems d).map Prod.snd).length ≤ i := by omega
        have := hR4 i hge hilen
        rw [hgetD mx i h] at this
        exact absurd hv2 (not_le.mpr this)
    · rintro ⟨h1, h2⟩
      have hv1 := hL4 i h1 hilen
      rw [hgetD mn i h] at hv1
      have hv2 := hR3 i h1 h2
      rw [hgetD mx i h] at hv2
      simp only [Bool.and_eq_true, decide_eq_true_eq]
      exact ⟨hv1, hv2⟩
  have hfilter :
      List.filter (fun q => decide (mn ≤ q.2) && decide (q.2 ≤ mx))
          (zitems d)
        = ((zitems d).take
            (bisectRight ((zitems d).map Prod.snd) mx
              (bisectLeft ((zitems d).map Prod.snd) mn
                0 ((zitems d).map Prod.snd).length)
              ((zitems d).map Prod.snd).length)).drop
            (bisectLeft ((zitems d).map Prod.snd) mn
              0 ((zitems d).map Prod.snd).length) :=
    filter_eq_drop_take _ (zitems d) _ _ hR1 hcond
  have hmain : range_by_score d mn mx
      = ((zitems d).filter
          (fun q => decide (mn ≤ q.2) && decide (q.2 ≤ mx))).map Prod.fst := by
    have hzas : zasSet d = (zitems d).map Prod.fst := rfl
    have hform : range_by_score d mn mx
        = (((zitems d).map Prod.fst).take
            (bisectRight ((zitems d).map Prod.snd) mx
              (bisectLeft ((zitems d).map Prod.snd) mn
                0 ((zitems d).map Prod.snd).length)
              ((zitems d).map Prod.snd).length)).drop
            (bisectLeft ((zitems d).map Prod.snd) mn
              0 ((zitems d).map Prod.snd).length) := rfl
    rw [hform, ← List.map_take, ← List.map_drop, ← hfilter]
  refine ⟨hsorted, hmain, ?_⟩
  intro m
  rw [hmain]
  simp only [List.mem_map, List.mem_filter, Bool.and_eq_true,
    decide_eq_true_eq]
  constructor
  · rintro ⟨⟨m2, sc⟩, ⟨hmem2, hp1, hp2⟩, heq⟩
    have hm2 : m2 = m := heq
    subst hm2
    exact ⟨sc, (List.perm_insertionSort zle d).subset hmem2, hp1, hp2⟩
  · rintro ⟨sc, hmem2, h1, h2⟩
    exact ⟨(m, sc),
      ⟨(List.perm_insertionSort zle d).symm.subset hmem2, h1, h2⟩, rfl⟩

end Redish
